import Mathlib

/-!
Shallow embedding of the learner-progress engine of the `mcpServer`
repository (backend/services/grading.py, gamification.py, srs.py and the
adaptive-difficulty block of backend/routers/sessions.py), together with
proofs of the specification claims about it.

Modelling conventions:
* Python `str` values are modelled as `List Char` (Unicode scalar values).
  `str.strip`, `str.lower`, `str.isdigit` and `int()` are modelled on the
  character ranges the program and the claims exercise (Basic Latin plus the
  Latin-1 superscript digits, which matter for `isdigit`/`int` divergence).
* `datetime` timestamps are modelled as integer seconds, `date` values as
  integer day numbers; subtraction of dates gives the day gap exactly as
  `(a - b).days` does for date objects.
* Fallible code (a reachable uncaught Python exception) is modelled by an
  `Option` result, `none` meaning the call raises.
* The database session is abstracted away: functions that read/write ORM
  objects become pure functions on explicit state (a `Profile` record, a
  list of streak-marker dates, per-exercise attempt lists).
-/

namespace ProgressEngine

/-! ## Python string primitives used by `backend/services/grading.py` -/

/-- Whitespace characters stripped by Python `str.strip()` (ASCII range;
the Unicode space characters do not occur in the data this program or the
claims exercise): space 32, tab 9, newline 10, carriage return 13,
vertical tab 11, form feed 12.  Characters are compared through their
code points so that the proofs can use plain arithmetic. -/
def pyIsSpace (c : Char) : Bool :=
  c.toNat = 32 || c.toNat = 9 || c.toNat = 10 || c.toNat = 13 ||
    c.toNat = 11 || c.toNat = 12

/-- Python `str.strip()`: drop leading and trailing whitespace. -/
def pyStrip (s : List Char) : List Char :=
  ((s.dropWhile pyIsSpace).reverse.dropWhile pyIsSpace).reverse

/-- Python `str.lower()` on one character, on the Basic Latin range:
`A`–`Z` (code points 65–90) map to `a`–`z` (97–122); every other modelled
character is fixed. -/
def pyLowerChar (c : Char) : Char :=
  if 65 ≤ c.toNat && c.toNat ≤ 90 then Char.ofNat (c.toNat + 32) else c

/-- Python `str.lower()`. -/
def pyLower (s : List Char) : List Char :=
  s.map pyLowerChar

/-- Python `str.isdigit()` on one character.  Besides the ASCII decimal
digits `0`–`9` (48–57) it is `true` for the Latin-1 superscript digits
`¹` U+00B9 (185), `²` U+00B2 (178) and `³` U+00B3 (179), whose Unicode
`Numeric_Type` is `Digit` although they are not decimal digits. -/
def pyIsDigit (c : Char) : Bool :=
  (48 ≤ c.toNat && c.toNat ≤ 57) || c.toNat = 185 || c.toNat = 178 || c.toNat = 179

/-- Python `str.isdigit()`: nonempty and every character a digit. -/
def pyIsDigitStr (s : List Char) : Bool :=
  !s.isEmpty && s.all pyIsDigit

/-- Python `int()` applied to a string: succeeds exactly on strings of
decimal-digit characters (general category `Nd`; here the ASCII digits),
returning their base-10 value.  On a string that passes `str.isdigit()`
but contains a superscript digit, `int()` raises `ValueError`, modelled
by `none`. -/
def pyIntOfString (s : List Char) : Option Nat :=
  if !s.isEmpty && s.all (fun c => 48 ≤ c.toNat && c.toNat ≤ 57) then
    some (s.foldl (fun n c => 10 * n + (c.toNat - 48)) 0)
  else
    none

/-! ## Data model (backend/models.py), restricted to the fields the core
reads or writes -/

/-- The `Exercise` ORM row (text fields as character lists; `choices` is
the optional JSON list of choice strings). -/
structure Exercise where
  type : List Char
  prompt : List Char
  answer_key : Option (List Char)
  choices : Option (List (List Char))
  difficulty : Int
  deriving DecidableEq, Repr

/-- The `Attempt` ORM row, restricted to what the review scheduler reads:
the correctness flag and the calendar date (day number) of `created_at`. -/
structure Attempt where
  is_correct : Bool
  created_at_date : Int
  deriving DecidableEq, Repr

/-- The `Profile` ORM row, restricted to the fields the progress ledger,
hearts regenerator and difficulty controller read or write.  `last_active`
is a day number, `hearts_last_refill_at` a timestamp in seconds. -/
structure Profile where
  xp : Int
  streak_count : Int
  hearts : Int
  last_active : Option Int
  current_difficulty : Int
  correct_streak : Int
  hearts_last_refill_at : Option Int
  deriving DecidableEq, Repr

/-! ## Grader (backend/services/grading.py) -/

/-- `_normalize` from grading.py: `text.strip().lower()`. -/
def normalize (text : List Char) : List Char :=
  pyLower (pyStrip text)

/-- The condition `len(raw) == 1 and raw.lower() in "abcdefghijklmnopqrstuvwxyz"`
from grading.py line 25: for a one-character string the substring test is
membership of the lowered character in `a`–`z` (code points 97–122). -/
def lowerInAlphabet (raw : List Char) : Bool :=
  match raw with
  | [c] => 97 ≤ (pyLowerChar c).toNat && (pyLowerChar c).toNat ≤ 122
  | _ => false

/-- Lines 25–32 of grading.py: resolve a stripped raw choice answer to the
compared selection text.  A single letter with nonempty choices is mapped
through `ord(raw.lower()) - ord('a')` and substituted when in range; else a
digit string with nonempty choices goes through `int(raw) - 1` (1-based)
and is substituted when in range; otherwise the raw text stands.  `none`
models the uncaught `ValueError` of `int(raw)` on a string that passes
`isdigit()` but is not made of decimal digits. -/
def resolveChoiceAnswer (choices : List (List Char)) (raw : List Char) : Option (List Char) :=
  if raw.length = 1 && lowerInAlphabet raw && !choices.isEmpty then
    let idx := (pyLowerChar (raw.headD ' ')).toNat - 97
    some (if idx < choices.length then choices.getD idx [] else raw)
  else if pyIsDigitStr raw && !choices.isEmpty then
    match pyIntOfString raw with
    | none => none
    | some n => some (if 1 ≤ n && n ≤ choices.length then choices.getD (n - 1) [] else raw)
  else
    some raw

/-- Length of the longest common prefix of two character lists (plain
equality). -/
def commonRunLen : List Char → List Char → Nat
  | x :: xs, y :: ys => if x = y then commonRunLen xs ys + 1 else 0
  | _, _ => 0

/-- The default `autojunk` heuristic of `difflib.SequenceMatcher` with
`isjunk=None`, as invoked by grading.py: when the second sequence `b` has
at least 200 elements, an element occurring more than `len(b) // 100 + 1`
times in `b` is "popular" and purged from the match index `b2j`, so it
cannot take part in a core matching chain.  (Popular elements are not
junk: `bjunk` stays empty, so the non-junk extension loops of
`find_longest_match` still run through them.) -/
def isPopular (b : List Char) (c : Char) : Bool :=
  decide (200 ≤ b.length) && decide (b.length / 100 + 1 < b.count c)

/-- Length of the run of pairs usable by the chaining loop of
`find_longest_match`: characters equal and the `b`-side character not
purged from `b2j`. -/
def coreRunLen (junkp : Char → Bool) : List Char → List Char → Nat
  | x :: xs, y :: ys =>
    if x = y && !junkp y then coreRunLen junkp xs ys + 1 else 0
  | _, _ => 0

/-- All `(i, j, k)` with `k` the length of the core run of `a` and `b`
starting at positions `i` and `j`, listed in lexicographic `(i, j)`
order. -/
def matchCandidates (junkp : Char → Bool) (a b : List Char) : List (Nat × Nat × Nat) :=
  (List.range (a.length + 1)).flatMap fun i =>
    (List.range (b.length + 1)).map fun j =>
      (i, j, coreRunLen junkp (a.drop i) (b.drop j))

/-- Keep the earlier block unless the later one is strictly longer. -/
def betterBlock (best c : Nat × Nat × Nat) : Nat × Nat × Nat :=
  if best.2.2 < c.2.2 then c else best

/-- The chaining loop of `find_longest_match`: the longest core matching
block, ties resolved toward the smallest start in `a`, then the smallest
start in `b`; `(0, 0, 0)` (the start of the range) when there is no
nonempty core match. -/
def bestCoreBlock (junkp : Char → Bool) (a b : List Char) : Nat × Nat × Nat :=
  (matchCandidates junkp a b).foldl betterBlock (0, 0, 0)

/-- `difflib.SequenceMatcher.find_longest_match` with `isjunk=None`: the
best core block, then extended on both sides while the adjacent
characters are equal.  With `isjunk=None` nothing is in `bjunk`, so the
first pair of extension loops runs on plain equality (through popular
characters too) and the junk-extension pair is vacuous. -/
def findLongestMatch (junkp : Char → Bool) (a b : List Char) : Nat × Nat × Nat :=
  let t := bestCoreBlock junkp a b
  let el := commonRunLen (a.take t.1).reverse (b.take t.2.1).reverse
  let er := commonRunLen (a.drop (t.1 + t.2.2)) (b.drop (t.2.1 + t.2.2))
  (t.1 - el, t.2.1 - el, el + t.2.2 + er)

/-- Total size `M` of the matching blocks of `difflib.SequenceMatcher`:
recursively the longest match plus the totals of the two remaining
halves, the junk predicate fixed from the top-level second sequence (the
`b2j` index is built once).  The fuel bounds the recursion depth; every
recursive call strictly decreases `a.length + b.length`, so the fuel used
by `matchingBlocksTotal` below never runs out. -/
def matchingBlocksTotalAux (junkp : Char → Bool) : Nat → List Char → List Char → Nat
  | 0, _, _ => 0
  | fuel + 1, a, b =>
    let t := findLongestMatch junkp a b
    if t.2.2 = 0 then 0
    else
      matchingBlocksTotalAux junkp fuel (a.take t.1) (b.take t.2.1) + t.2.2 +
        matchingBlocksTotalAux junkp fuel (a.drop (t.1 + t.2.2)) (b.drop (t.2.1 + t.2.2))

/-- Total matched size `M` entering `SequenceMatcher.ratio`, with the
default `autojunk` popularity purge computed from `b`. -/
def matchingBlocksTotal (a b : List Char) : Nat :=
  matchingBlocksTotalAux (isPopular b) (a.length + b.length + 1) a b

/-- The test `SequenceMatcher(None, a, b).ratio() > 0.85` from grading.py
line 42.  `ratio` is `2 * M / T` with `T = len(a) + len(b)` (and `1.0`
when `T = 0`), so the comparison is exactly `40 * M > 17 * T`; the float
arithmetic is exact at these magnitudes. -/
def seqRatioGt85 (a b : List Char) : Bool :=
  let total := a.length + b.length
  if total = 0 then true
  else decide (17 * total < 40 * matchingBlocksTotal a b)

/-- `grade_answer` from grading.py.  `none` models an uncaught Python
exception; every other outcome is `some (is_correct, feedback)`. -/
def gradeAnswer (exercise : Exercise) (answer : List Char) : Option (Bool × List Char) :=
  let user := answer
  let expected := exercise.answer_key.getD []
  if exercise.type = "mcq".toList ∨ exercise.type = "multiple_choice".toList then
    let raw := pyStrip user
    let choices := exercise.choices.getD []
    match resolveChoiceAnswer choices raw with
    | none => none
    | some selected =>
      let is_correct := normalize selected == normalize expected
      some (is_correct, if is_correct then "Correct!".toList else "Incorrect.".toList)
  else
    if normalize user == normalize expected then
      some (true, "Correct!".toList)
    else if seqRatioGt85 (normalize user) (normalize expected) then
      some (false, "Close! Watch spelling or accents.".toList)
    else
      some (false, "Expected: ".toList ++ expected)

/-! ## Gamification (backend/services/gamification.py) -/

/-- `HEARTS_MAX` from gamification.py. -/
def HEARTS_MAX : Int := 5

/-- `HEARTS_REGEN_INTERVAL_MINUTES` from gamification.py. -/
def HEARTS_REGEN_INTERVAL_MINUTES : Int := 15

/-- `_compute_hearts_refill(now, last, current)` from gamification.py.
Timestamps are seconds; `int((now - last).total_seconds() // 60)` is the
floored minute count, Python `//` being floor division (`Int.fdiv`). -/
def computeHeartsRefill (now : Int) (last : Option Int) (current : Int) : Int × Int :=
  if HEARTS_MAX ≤ current then
    (current, last.getD now)
  else
    let l := last.getD now
    let minutes := Int.fdiv (now - l) 60
    if minutes ≤ 0 then (current, l)
    else
      let refills := Int.fdiv minutes HEARTS_REGEN_INTERVAL_MINUTES
      if refills ≤ 0 then (current, l)
      else
        (min HEARTS_MAX (current + refills),
          l + refills * HEARTS_REGEN_INTERVAL_MINUTES * 60)

/-- `maybe_regen_hearts(profile)` from gamification.py: compute the refill
from the stored anchor and write both fields back only when the heart
count changed.  (The timezone normalisation of a naive stored timestamp is
the identity in the integer-seconds model.) -/
def maybeRegenHearts (now : Int) (p : Profile) : Profile :=
  let r := computeHeartsRefill now p.hearts_last_refill_at p.hearts
  if r.1 ≠ p.hearts then
    { p with hearts := r.1, hearts_last_refill_at := some r.2 }
  else
    p

/-- `update_streak_on_activity(session, profile)` from gamification.py,
with `dt.date.today()` passed explicitly and the learner's `StreakLog`
rows abstracted as the list of their dates.  The marker insert is guarded
by the existence query, so a duplicate date is never appended. -/
def updateStreakOnActivity (today : Int) (p : Profile) (markers : List Int) :
    Profile × List Int :=
  if p.last_active = some today then
    (p, markers)
  else
    let sc :=
      match p.last_active with
      | none => 1
      | some last =>
        let delta := today - last
        if delta = 1 then p.streak_count + 1
        else if 1 < delta then 1
        else p.streak_count
    let p1 := { p with streak_count := sc, last_active := some today }
    let markers1 := if today ∈ markers then markers else markers ++ [today]
    (p1, markers1)

/-- `apply_answer_outcome(session, profile, is_correct)` from
gamification.py: award XP, deplete a heart on a wrong answer, then run the
streak bookkeeping; returns the new state and the awarded XP. -/
def applyAnswerOutcome (today : Int) (p : Profile) (markers : List Int)
    (is_correct : Bool) : (Profile × List Int) × Int :=
  let awarded : Int := if is_correct then 10 else 0
  let p1 := { p with xp := p.xp + awarded }
  let p2 := if is_correct then p1 else { p1 with hearts := max 0 (p1.hearts - 1) }
  (updateStreakOnActivity today p2 markers, awarded)

/-! ## Adaptive difficulty (backend/routers/sessions.py, submit_answer
lines 63–71) -/

/-- The difficulty/streak update block of `submit_answer`: the new
`(current_difficulty, correct_streak)` after one graded attempt. -/
def difficultyStep (current_difficulty correct_streak : Int) (is_correct : Bool) :
    Int × Int :=
  if is_correct then
    let s := correct_streak + 1
    if 3 ≤ s then (min 5 (current_difficulty + 1), 0)
    else (current_difficulty, s)
  else
    (max 1 (current_difficulty - 1), 0)

/-! ## Review scheduler (backend/services/srs.py) -/

/-- `_compute_streak(attempts)` from srs.py: consecutive correct attempts
from the front of the newest-first list, stopping at the first incorrect. -/
def computeStreak : List Attempt → Nat
  | [] => 0
  | att :: rest => if att.is_correct then computeStreak rest + 1 else 0

/-- The per-exercise due classification of `due_exercises` (srs.py lines
40–50): no attempts means immediately due; otherwise due when the date of
the newest attempt plus `min(32, 2 ** max(0, streak))` days is at most
today. -/
def attemptsDue (today : Int) (attempts : List Attempt) : Bool :=
  match attempts with
  | [] => true
  | a :: _ =>
    let streak := computeStreak attempts
    let interval_days : Int := min 32 (2 ^ max 0 streak)
    decide (a.created_at_date + interval_days ≤ today)

/-- The classification loop of `due_exercises` (srs.py lines 32–53) over
the catalog paired with each exercise's newest-first attempt list: an
exercise with no attempts is appended and the loop continues (the `break`
check is skipped by `continue`); otherwise it is appended when due and the
loop breaks once the accumulated list reaches `limit`. -/
def dueLoop (today : Int) (limit : Nat) :
    List (Exercise × List Attempt) → List Exercise → List Exercise
  | [], acc => acc
  | (ex, atts) :: rest, acc =>
    match atts with
    | [] => dueLoop today limit rest (acc ++ [ex])
    | _ :: _ =>
      let acc1 := if attemptsDue today atts then acc ++ [ex] else acc
      if limit ≤ acc1.length then acc1 else dueLoop today limit rest acc1

/-- The padding loop of `due_exercises` (srs.py lines 55–61): append
catalog exercises not already present until the list reaches `limit`. -/
def padLoop (limit : Nat) : List Exercise → List Exercise → List Exercise
  | [], acc => acc
  | ex :: rest, acc =>
    if ex ∈ acc then padLoop limit rest acc
    else
      let acc1 := acc ++ [ex]
      if limit ≤ acc1.length then acc1 else padLoop limit rest acc1

/-- `due_exercises` from srs.py: classify, pad when short, truncate to
`limit`. -/
def dueExercises (today : Int) (limit : Nat)
    (catalog : List (Exercise × List Attempt)) : List Exercise :=
  let due := dueLoop today limit catalog []
  let padded := if due.length < limit then padLoop limit (catalog.map Prod.fst) due else due
  padded.take limit

/-! ## Lemmas about the hearts regenerator -/

/-- Branch normal form of `computeHeartsRefill`. -/
lemma computeHeartsRefill_eq (now : Int) (last : Option Int) (current : Int) :
    computeHeartsRefill now last current =
      if 5 ≤ current then (current, last.getD now)
      else if Int.fdiv (now - last.getD now) 60 ≤ 0 then (current, last.getD now)
      else if Int.fdiv (Int.fdiv (now - last.getD now) 60) 15 ≤ 0 then (current, last.getD now)
      else
        (min 5 (current + Int.fdiv (Int.fdiv (now - last.getD now) 60) 15),
          last.getD now + Int.fdiv (Int.fdiv (now - last.getD now) 60) 15 * 15 * 60) := rfl

lemma fdiv15_nonpos {m : Int} (h : m ≤ 0) : Int.fdiv m 15 ≤ 0 := by
  rw [Int.fdiv_eq_ediv _ (by norm_num : (0 : Int) ≤ 15)]
  calc m / 15 ≤ 0 / 15 := Int.ediv_le_ediv (by norm_num) h
    _ = 0 := Int.zero_ediv 15

lemma fdiv15_nonpos_of_lt {m : Int} (h : m < 15) : Int.fdiv m 15 ≤ 0 := by
  rw [Int.fdiv_eq_ediv _ (by norm_num : (0 : Int) ≤ 15)]
  calc m / 15 ≤ 14 / 15 := Int.ediv_le_ediv (by norm_num) (by omega)
    _ = 0 := by decide

lemma fdiv15_eq_zero {m : Int} (h0 : 0 ≤ m) (h15 : m < 15) : Int.fdiv m 15 = 0 := by
  rw [Int.fdiv_eq_ediv _ (by norm_num : (0 : Int) ≤ 15)]
  exact Int.ediv_eq_zero_of_lt h0 h15

/-- A full pool returns unchanged, the anchor defaulted to `now` only when
absent. -/
lemma chr_full (now : Int) (last : Option Int) (current : Int) (hf : 5 ≤ current) :
    computeHeartsRefill now last current = (current, last.getD now) := by
  rw [computeHeartsRefill_eq, if_pos hf]

/-- Below the cap with an absent anchor: no elapsed time, no change, the
anchor seeded to `now`. -/
lemma chr_none (now current : Int) (hlt : current < 5) :
    computeHeartsRefill now none current = (current, now) := by
  rw [computeHeartsRefill_eq, if_neg (not_le.mpr hlt)]
  simp only [Option.getD_none]
  rw [if_pos (by rw [sub_self, Int.zero_fdiv])]

/-- Below the cap with fewer than 15 whole elapsed minutes: no change. -/
lemma chr_no_refill (now l current : Int) (hlt : current < 5)
    (hr : Int.fdiv (Int.fdiv (now - l) 60) 15 ≤ 0) :
    computeHeartsRefill now (some l) current = (current, l) := by
  rw [computeHeartsRefill_eq, if_neg (not_le.mpr hlt)]
  simp only [Option.getD_some]
  by_cases hm : Int.fdiv (now - l) 60 ≤ 0
  · rw [if_pos hm]
  · rw [if_neg hm, if_pos hr]

/-- Below the cap with at least one earned refill: clamped-sum hearts and
the anchor advanced by the consumed intervals. -/
lemma chr_refill (now l current : Int) (hlt : current < 5)
    (hr : 0 < Int.fdiv (Int.fdiv (now - l) 60) 15) :
    computeHeartsRefill now (some l) current =
      (min 5 (current + Int.fdiv (Int.fdiv (now - l) 60) 15),
        l + Int.fdiv (Int.fdiv (now - l) 60) 15 * 15 * 60) := by
  have hm : ¬ Int.fdiv (now - l) 60 ≤ 0 := fun hm =>
    absurd hr (not_lt.mpr (fdiv15_nonpos hm))
  rw [computeHeartsRefill_eq, if_neg (not_le.mpr hlt)]
  simp only [Option.getD_some]
  rw [if_neg hm, if_neg (not_le.mpr hr)]

lemma fdiv_sub_advance (x r : Int) :
    Int.fdiv (x - r * 15 * 60) 60 = Int.fdiv x 60 - 15 * r := by
  rw [Int.fdiv_eq_ediv _ (by norm_num : (0 : Int) ≤ 60),
    Int.fdiv_eq_ediv _ (by norm_num : (0 : Int) ≤ 60)]
  have h : x - r * 15 * 60 = x + -(15 * r) * 60 := by ring
  rw [h, Int.add_mul_ediv_right _ _ (by norm_num : (60 : Int) ≠ 0)]
  ring

lemma sub_fifteen_fdiv (m : Int) : m - 15 * Int.fdiv m 15 = m % 15 := by
  rw [Int.fdiv_eq_ediv _ (by norm_num : (0 : Int) ≤ 15)]
  have h := Int.ediv_add_emod m 15
  linarith

/-- C2: for every hearts value in `[0, 5]`, every anchor (possibly absent)
and every fixed `now`, running the regeneration a second time on the
returned `(newHearts, newLastRefillAt)` with the same `now` is a no-op. -/
theorem hearts_regen_idempotent (now : Int) (last : Option Int) (h : Int)
    (h0 : 0 ≤ h) (h5 : h ≤ 5) :
    computeHeartsRefill now (some (computeHeartsRefill now last h).2)
        (computeHeartsRefill now last h).1
      = computeHeartsRefill now last h := by
  by_cases hf : 5 ≤ h
  · rw [chr_full now last h hf]
    show computeHeartsRefill now (some (last.getD now)) h = (h, last.getD now)
    rw [chr_full now (some (last.getD now)) h hf, Option.getD_some]
  · have hlt : h < 5 := not_le.mp hf
    cases last with
    | none =>
      rw [chr_none now h hlt]
      show computeHeartsRefill now (some now) h = (h, now)
      exact chr_no_refill now now h hlt (by rw [sub_self, Int.zero_fdiv, Int.zero_fdiv])
    | some l =>
      by_cases hr : Int.fdiv (Int.fdiv (now - l) 60) 15 ≤ 0
      · rw [chr_no_refill now l h hlt hr]
        show computeHeartsRefill now (some l) h = (h, l)
        exact chr_no_refill now l h hlt hr
      · push_neg at hr
        rw [chr_refill now l h hlt hr]
        show computeHeartsRefill now
            (some (l + Int.fdiv (Int.fdiv (now - l) 60) 15 * 15 * 60))
            (min 5 (h + Int.fdiv (Int.fdiv (now - l) 60) 15))
          = (min 5 (h + Int.fdiv (Int.fdiv (now - l) 60) 15),
             l + Int.fdiv (Int.fdiv (now - l) 60) 15 * 15 * 60)
        set r := Int.fdiv (Int.fdiv (now - l) 60) 15 with hrdef
        by_cases h5r : 5 ≤ h + r
        · rw [min_eq_left h5r]
          rw [chr_full now (some (l + r * 15 * 60)) 5 le_rfl, Option.getD_some]
        · rw [min_eq_right (le_of_not_le h5r)]
          apply chr_no_refill now (l + r * 15 * 60) (h + r) (not_le.mp h5r)
          have h1 : now - (l + r * 15 * 60) = (now - l) - r * 15 * 60 := by ring
          rw [h1, fdiv_sub_advance]
          have h2 : Int.fdiv (now - l) 60 - 15 * r = Int.fdiv (now - l) 60 % 15 := by
            rw [hrdef]; exact sub_fifteen_fdiv _
          rw [h2]
          have h3 : 0 ≤ Int.fdiv (now - l) 60 % 15 :=
            Int.emod_nonneg _ (by norm_num)
          have h4 : Int.fdiv (now - l) 60 % 15 < 15 :=
            Int.emod_lt_of_pos _ (by norm_num)
          rw [fdiv15_eq_zero h3 h4]

/-- Witness for C2 at `now = 1860` s, anchor `0`, 3 hearts. -/
theorem hearts_regen_idempotent_witness :
    ((0 : Int) ≤ 3 ∧ (3 : Int) ≤ 5) ∧
    computeHeartsRefill 1860 (some (computeHeartsRefill 1860 (some 0) 3).2)
        (computeHeartsRefill 1860 (some 0) 3).1
      = computeHeartsRefill 1860 (some 0) 3 :=
  ⟨⟨by decide, by decide⟩, hearts_regen_idempotent 1860 (some 0) 3 (by decide) (by decide)⟩

/-- C3: below the cap with an anchor `m ≥ 15` whole minutes old, the new
heart count is `min 5 (current + m / 15)` and the anchor advances by
exactly `(m / 15) * 15` minutes, never to `now`; in particular 3 hearts
with the anchor 31 minutes old become 5 hearts with the anchor advanced
by exactly 30 minutes. -/
theorem hearts_refill_amount (now last cur m : Int) (hcur : cur < 5)
    (hm : Int.fdiv (now - last) 60 = m) (h15 : 15 ≤ m) :
    computeHeartsRefill now (some last) cur =
      (min 5 (cur + Int.fdiv m 15), last + Int.fdiv m 15 * 15 * 60)
    ∧ computeHeartsRefill (31 * 60) (some 0) 3 = (5, 30 * 60) := by
  constructor
  · have hr : 0 < Int.fdiv m 15 := by
      rw [Int.fdiv_eq_ediv _ (by norm_num : (0 : Int) ≤ 15)]
      calc (0 : Int) < 15 / 15 := by decide
        _ ≤ m / 15 := Int.ediv_le_ediv (by norm_num) h15
    have e := chr_refill now last cur hcur (by rw [hm]; exact hr)
    rw [e, hm]
  · decide

/-- Witness for C3: anchor at `0`, `now = 1860` s (31 minutes), 3 hearts,
`m = 31`. -/
theorem hearts_refill_amount_witness :
    computeHeartsRefill 1860 (some 0) 3 =
      (min 5 (3 + Int.fdiv 31 15), 0 + Int.fdiv 31 15 * 15 * 60)
    ∧ computeHeartsRefill (31 * 60) (some 0) 3 = (5, 30 * 60) :=
  hearts_refill_amount 1860 0 3 31 (by decide) (by decide) (by decide)

/-- C10: `maybe_regen_hearts` leaves the profile untouched whenever no
refill is earned — hearts already full, anchor absent, or fewer than 15
whole elapsed minutes; in particular an absent anchor is never seeded. -/
theorem maybe_regen_frame (now : Int) (p : Profile)
    (h : 5 ≤ p.hearts ∨ p.hearts_last_refill_at = none ∨
        ∃ l, p.hearts_last_refill_at = some l ∧ Int.fdiv (now - l) 60 < 15) :
    maybeRegenHearts now p = p := by
  have hfst : (computeHeartsRefill now p.hearts_last_refill_at p.hearts).1 = p.hearts := by
    rcases h with hf | hnone | ⟨l, hl, hm⟩
    · rw [chr_full now _ _ hf]
    · rw [hnone]
      by_cases hf : 5 ≤ p.hearts
      · rw [chr_full now _ _ hf]
      · rw [chr_none now _ (not_le.mp hf)]
    · rw [hl]
      by_cases hf : 5 ≤ p.hearts
      · rw [chr_full now _ _ hf]
      · rw [chr_no_refill now l p.hearts (not_le.mp hf) (fdiv15_nonpos_of_lt hm)]
  simp only [maybeRegenHearts, hfst, ne_eq, not_true_eq_false, if_false]

/-- Witness for C10: absent anchor, 3 hearts. -/
theorem maybe_regen_frame_witness :
    maybeRegenHearts 1000
      { xp := 0, streak_count := 0, hearts := 3, last_active := none,
        current_difficulty := 1, correct_streak := 0, hearts_last_refill_at := none }
      = { xp := 0, streak_count := 0, hearts := 3, last_active := none,
          current_difficulty := 1, correct_streak := 0, hearts_last_refill_at := none } :=
  maybe_regen_frame 1000 _ (Or.inr (Or.inl rfl))

/-! ## Progress ledger -/

lemma updateStreak_xp (today : Int) (p : Profile) (markers : List Int) :
    (updateStreakOnActivity today p markers).1.xp = p.xp := by
  unfold updateStreakOnActivity
  split <;> rfl

lemma updateStreak_hearts (today : Int) (p : Profile) (markers : List Int) :
    (updateStreakOnActivity today p markers).1.hearts = p.hearts := by
  unfold updateStreakOnActivity
  split <;> rfl

/-- C7: one outcome application awards 10 XP when correct and 0 when not,
adds exactly that to `xp` (which therefore never decreases), and on an
incorrect answer lowers `hearts` by one floored at 0 while a correct
answer leaves `hearts` untouched. -/
theorem apply_outcome_rewards (today : Int) (p : Profile) (markers : List Int)
    (is_correct : Bool) :
    (applyAnswerOutcome today p markers is_correct).2 = (if is_correct then 10 else 0)
    ∧ (applyAnswerOutcome today p markers is_correct).1.1.xp
        = p.xp + (applyAnswerOutcome today p markers is_correct).2
    ∧ p.xp ≤ (applyAnswerOutcome today p markers is_correct).1.1.xp
    ∧ (applyAnswerOutcome today p markers is_correct).1.1.hearts
        = (if is_correct then p.hearts else max 0 (p.hearts - 1)) := by
  cases is_correct with
  | false =>
    have e : applyAnswerOutcome today p markers false =
        (updateStreakOnActivity today
          { p with xp := p.xp + 0, hearts := max 0 (p.hearts - 1) } markers, 0) := rfl
    refine ⟨rfl, ?_, ?_, ?_⟩
    · rw [e, updateStreak_xp]
    · rw [e, updateStreak_xp]
      show p.xp ≤ p.xp + 0
      omega
    · rw [e, updateStreak_hearts]
      rfl
  | true =>
    have e : applyAnswerOutcome today p markers true =
        (updateStreakOnActivity today { p with xp := p.xp + 10 } markers, 10) := rfl
    refine ⟨rfl, ?_, ?_, ?_⟩
    · rw [e, updateStreak_xp]
    · rw [e, updateStreak_xp]
      show p.xp ≤ p.xp + 10
      omega
    · rw [e, updateStreak_hearts]
      rfl

/-- C9: with `lastActiveDate` exactly yesterday, one streak update
increments `streakCount` by exactly 1 and stamps today; a second update
the same day changes nothing (profile and marker list both unchanged). -/
theorem streak_yesterday_increment (today : Int) (p : Profile) (markers : List Int)
    (h : p.last_active = some (today - 1)) :
    (updateStreakOnActivity today p markers).1.streak_count = p.streak_count + 1
    ∧ (updateStreakOnActivity today p markers).1.last_active = some today
    ∧ updateStreakOnActivity today (updateStreakOnActivity today p markers).1
        (updateStreakOnActivity today p markers).2
      = updateStreakOnActivity today p markers := by
  have hne : ¬ p.last_active = some today := by
    rw [h]
    simp only [Option.some.injEq]
    omega
  have e1 : updateStreakOnActivity today p markers =
      ({ p with streak_count := p.streak_count + 1, last_active := some today },
        if today ∈ markers then markers else markers ++ [today]) := by
    unfold updateStreakOnActivity
    rw [if_neg hne]
    simp only [h, show today - (today - 1) = 1 from by omega]
    simp
  refine ⟨by rw [e1], by rw [e1], ?_⟩
  rw [e1]
  unfold updateStreakOnActivity
  rw [if_pos rfl]

/-- Witness for C9 at `today = 10` on a profile last active on day 9. -/
theorem streak_yesterday_increment_witness :
    (updateStreakOnActivity 10
        { xp := 0, streak_count := 4, hearts := 5, last_active := some 9,
          current_difficulty := 1, correct_streak := 0, hearts_last_refill_at := none }
        []).1.streak_count
      = ({ xp := 0, streak_count := 4, hearts := 5, last_active := some 9,
           current_difficulty := 1, correct_streak := 0,
           hearts_last_refill_at := none } : Profile).streak_count + 1
    ∧ (updateStreakOnActivity 10
        { xp := 0, streak_count := 4, hearts := 5, last_active := some 9,
          current_difficulty := 1, correct_streak := 0, hearts_last_refill_at := none }
        []).1.last_active = some 10
    ∧ updateStreakOnActivity 10
        (updateStreakOnActivity 10
          { xp := 0, streak_count := 4, hearts := 5, last_active := some 9,
            current_difficulty := 1, correct_streak := 0, hearts_last_refill_at := none }
          []).1
        (updateStreakOnActivity 10
          { xp := 0, streak_count := 4, hearts := 5, last_active := some 9,
            current_difficulty := 1, correct_streak := 0, hearts_last_refill_at := none }
          []).2
      = updateStreakOnActivity 10
          { xp := 0, streak_count := 4, hearts := 5, last_active := some 9,
            current_difficulty := 1, correct_streak := 0, hearts_last_refill_at := none }
          [] :=
  streak_yesterday_increment 10 _ [] (by decide)

/-! ## Difficulty controller -/

/-- Iterated correct outcomes through the `submit_answer` difficulty
block. -/
def stepsCorrect : Nat → Int × Int → Int × Int
  | 0, st => st
  | n + 1, st => stepsCorrect n (difficultyStep st.1 st.2 true)

lemma difficultyStep_true_fst (d s : Int) :
    (difficultyStep d s true).1 = if 3 ≤ s + 1 then min 5 (d + 1) else d := by
  simp only [difficultyStep]
  split_ifs <;> rfl

/-- C4: from streak 0, three straight correct answers promote the
difficulty to `min 5 (d + 1)` and reset the streak; any incorrect answer
resets the streak and demotes to `max 1 (d - 1)`; each single step keeps
the difficulty inside `[1, 5]`. -/
theorem difficulty_adjustment (d s : Int) (h1 : 1 ≤ d) (h5 : d ≤ 5) :
    stepsCorrect 3 (d, 0) = (min 5 (d + 1), 0)
    ∧ difficultyStep d s false = (max 1 (d - 1), 0)
    ∧ (1 ≤ (difficultyStep d s true).1 ∧ (difficultyStep d s true).1 ≤ 5)
    ∧ (1 ≤ (difficultyStep d s false).1 ∧ (difficultyStep d s false).1 ≤ 5) := by
  refine ⟨?_, rfl, ⟨?_, ?_⟩, ⟨?_, ?_⟩⟩
  · show stepsCorrect 2 (difficultyStep d 0 true) = _
    norm_num [stepsCorrect, difficultyStep]
  · rw [difficultyStep_true_fst]
    split_ifs <;> omega
  · rw [difficultyStep_true_fst]
    split_ifs <;> omega
  · show (1 : Int) ≤ max 1 (d - 1)
    omega
  · show (max 1 (d - 1) : Int) ≤ 5
    omega

/-- Witness for C4 at `d = 5`, `s = 2`. -/
theorem difficulty_adjustment_witness :
    stepsCorrect 3 (5, 0) = (min 5 (5 + 1), 0)
    ∧ difficultyStep 5 2 false = (max 1 (5 - 1), 0)
    ∧ (1 ≤ (difficultyStep 5 2 true).1 ∧ (difficultyStep 5 2 true).1 ≤ 5)
    ∧ (1 ≤ (difficultyStep 5 2 false).1 ∧ (difficultyStep 5 2 false).1 ≤ 5) :=
  difficulty_adjustment 5 2 (by decide) (by decide)

/-! ## Review scheduler -/

lemma computeStreak_eq_takeWhile (l : List Attempt) :
    computeStreak l = (l.takeWhile fun a => a.is_correct).length := by
  induction l with
  | nil => rfl
  | cons a rest ih =>
    by_cases h : a.is_correct
    · simp [computeStreak, List.takeWhile_cons, h, ih]
    · simp [computeStreak, List.takeWhile_cons, h]

/-- As long as the `limit` break cannot fire, the classification loop
collects exactly the due exercises, in catalog order. -/
lemma dueLoop_eq (today : Int) (limit : Nat) :
    ∀ (l : List (Exercise × List Attempt)) (acc : List Exercise),
      acc.length + l.length ≤ limit →
      dueLoop today limit l acc
        = acc ++ (l.filter fun q => attemptsDue today q.2).map Prod.fst := by
  intro l
  induction l with
  | nil =>
    intro acc h
    simp [dueLoop]
  | cons q rest ih =>
    intro acc h
    obtain ⟨ex, atts⟩ := q
    simp only [List.length_cons] at h
    cases atts with
    | nil =>
      simp only [dueLoop]
      rw [ih (acc ++ [ex]) (by simp; omega)]
      simp [List.filter_cons, attemptsDue]
    | cons a as =>
      simp only [dueLoop]
      by_cases hdue : attemptsDue today (a :: as) = true
      · simp only [hdue, if_true]
        by_cases hbreak : limit ≤ (acc ++ [ex]).length
        · have hrest : rest = [] := by
            apply List.length_eq_zero.mp
            simp only [List.length_append, List.length_singleton] at hbreak
            omega
          subst hrest
          rw [if_pos hbreak]
          simp [List.filter_cons, hdue]
        · rw [if_neg hbreak]
          rw [ih (acc ++ [ex]) (by simp; omega)]
          simp [List.filter_cons, hdue]
      · rw [Bool.not_eq_true] at hdue
        simp only [hdue, Bool.false_eq_true, if_false]
        have hbreak : ¬ limit ≤ acc.length := by omega
        rw [if_neg hbreak]
        rw [ih acc (by omega)]
        simp [List.filter_cons, hdue]

/-- C6: with a limit at least the catalog size, the classification phase
returns exactly the due exercises, and an exercise is classified due
precisely when it has no attempts or the date of its newest attempt plus
`min(32, 2^streak)` days is at most today, `streak` being the count of
consecutive correct attempts scanned newest-first up to the first
incorrect one. -/
theorem due_classification (today : Int) (limit : Nat)
    (catalog : List (Exercise × List Attempt)) (atts : List Attempt)
    (hlim : catalog.length ≤ limit) :
    dueLoop today limit catalog []
      = (catalog.filter fun q => attemptsDue today q.2).map Prod.fst
    ∧ (attemptsDue today atts = true ↔
        (atts = [] ∨ ∃ a rest, atts = a :: rest ∧
          a.created_at_date
              + min 32 ((2 : Int) ^ (atts.takeWhile fun x => x.is_correct).length)
            ≤ today)) := by
  constructor
  · exact dueLoop_eq today limit catalog [] (by simpa using hlim)
  · cases atts with
    | nil => simp [attemptsDue]
    | cons a rest =>
      simp only [attemptsDue, decide_eq_true_eq, computeStreak_eq_takeWhile,
        Nat.zero_max]
      constructor
      · intro hle
        exact Or.inr ⟨a, rest, rfl, hle⟩
      · rintro (hnil | ⟨a1, rest1, heq, hle⟩)
        · exact absurd hnil (List.cons_ne_nil a rest)
        · injection heq with h1 h2
          subst h1
          subst h2
          exact hle

/-- Catalog exercise with no attempts, used by the C6 witness. -/
def exFresh : Exercise :=
  { type := "translate".toList, prompt := "a".toList,
    answer_key := some "hola".toList, choices := none, difficulty := 1 }

/-- Catalog exercise with a one-correct-streak history, used by the C6
witness. -/
def exSeen : Exercise :=
  { type := "translate".toList, prompt := "b".toList,
    answer_key := some "adios".toList, choices := none, difficulty := 2 }

/-- Attempt history of `exSeen`, newest first: correct on day 99 after an
incorrect on day 98. -/
def attsSeen : List Attempt :=
  [{ is_correct := true, created_at_date := 99 },
   { is_correct := false, created_at_date := 98 }]

/-- Witness for C6 on a two-exercise catalog at `today = 100`. -/
theorem due_classification_witness :
    dueLoop 100 5 [(exFresh, []), (exSeen, attsSeen)] []
      = (([(exFresh, []), (exSeen, attsSeen)]).filter
          fun q => attemptsDue 100 q.2).map Prod.fst
    ∧ (attemptsDue 100 attsSeen = true ↔
        (attsSeen = [] ∨ ∃ a rest, attsSeen = a :: rest ∧
          a.created_at_date
              + min 32 ((2 : Int) ^ (attsSeen.takeWhile fun x => x.is_correct).length)
            ≤ 100)) :=
  due_classification 100 5 [(exFresh, []), (exSeen, attsSeen)] attsSeen (by decide)

/-! ## Grader -/

/-- Choice exercise with nonempty choices, used for the C1 failing
input. -/
def mcqYesNo : Exercise :=
  { type := "mcq".toList, prompt := "pick".toList, answer_key := some "si".toList,
    choices := some ["si".toList, "no".toList], difficulty := 1 }

/-- C1 evaluated at the failing input: grading the one-character answer
`²` (U+00B2) against a choice exercise with nonempty choices aborts with
an uncaught `ValueError` (modelled by `none`) instead of falling back to
verbatim text comparison: `'²'.isdigit()` is `True`, so the `elif` branch
runs `int(raw)`, which rejects the superscript digit, and no handler
catches it. -/
theorem choice_grading_superscript_raises :
    gradeAnswer mcqYesNo "²".toList = none := by decide

lemma dropWhile_eq_self_of_all {p : Char → Bool} :
    ∀ s : List Char, (∀ x ∈ s, p x = false) → s.dropWhile p = s
  | [], _ => rfl
  | x :: xs, h => by simp [List.dropWhile_cons, h x (by simp)]

lemma pyStrip_eq_self {s : List Char} (h : ∀ x ∈ s, pyIsSpace x = false) :
    pyStrip s = s := by
  unfold pyStrip
  rw [dropWhile_eq_self_of_all s h,
    dropWhile_eq_self_of_all s.reverse (fun x hx => h x (List.mem_reverse.mp hx))]
  exact List.reverse_reverse s

lemma pyIsSpace_eq_false_of_ge {c : Char} (h : 33 ≤ c.toNat) :
    pyIsSpace c = false := by
  simp only [pyIsSpace, Bool.or_eq_false_iff, decide_eq_false_iff_not]
  omega

lemma lowerInAlphabet_digits {s : List Char}
    (h : ∀ x ∈ s, 48 ≤ x.toNat ∧ x.toNat ≤ 57) :
    lowerInAlphabet s = false := by
  match s with
  | [] => rfl
  | [d] =>
    have hd := h d (by simp)
    have hfix : pyLowerChar d = d := by
      unfold pyLowerChar
      rw [if_neg]
      simp only [Bool.and_eq_true, decide_eq_true_eq, not_and]
      omega
    simp only [lowerInAlphabet, hfix, Bool.and_eq_false_iff, decide_eq_false_iff_not]
    omega
  | d :: e :: rest => rfl

lemma pyLowerChar_ge_97 {c : Char} (hc : lowerInAlphabet [c] = true) :
    33 ≤ c.toNat := by
  simp only [lowerInAlphabet, Bool.and_eq_true, decide_eq_true_eq] at hc
  obtain ⟨h97, _⟩ := hc
  by_cases hAZ : (65 ≤ c.toNat && c.toNat ≤ 90) = true
  · simp only [Bool.and_eq_true, decide_eq_true_eq] at hAZ
    omega
  · rw [pyLowerChar, if_neg hAZ] at h97
    omega

/-- Demo choice exercise from the spec examples. -/
def exChoiceDemo : Exercise :=
  { type := "mcq".toList, prompt := "greet".toList,
    answer_key := some "Buenos días".toList,
    choices := some ["Buenas noches".toList, "Buenos días".toList, "Adiós".toList],
    difficulty := 1 }

/-- C5: on a choice exercise with choices present, a single letter whose
lower case falls in `a`–`z` and indexes into the choices selects the
zero-based choice, a decimal string selects the one-based choice, and the
verdict is trimmed-lowercased equality of the selected text against the
answer key; concretely, `"2"` against the demo exercise is correct and
`"a"` selects the first choice, which does not match. -/
theorem choice_resolution (ex : Exercise) (choices : List (List Char)) (key : List Char)
    (c : Char) (digits : List Char) (n : Nat)
    (hty : ex.type = "mcq".toList ∨ ex.type = "multiple_choice".toList)
    (hch : ex.choices = some choices) (hkey : ex.answer_key = some key)
    (hc : lowerInAlphabet [c] = true)
    (hcr : (pyLowerChar c).toNat - 97 < choices.length)
    (hd : ∀ x ∈ digits, 48 ≤ x.toNat ∧ x.toNat ≤ 57) (hdne : digits ≠ [])
    (hn : pyIntOfString digits = some n) (hn1 : 1 ≤ n) (hnr : n ≤ choices.length) :
    gradeAnswer ex [c]
      = some ((normalize (choices.getD ((pyLowerChar c).toNat - 97) []) == normalize key),
          if normalize (choices.getD ((pyLowerChar c).toNat - 97) []) == normalize key
          then "Correct!".toList else "Incorrect.".toList)
    ∧ gradeAnswer ex digits
      = some ((normalize (choices.getD (n - 1) []) == normalize key),
          if normalize (choices.getD (n - 1) []) == normalize key
          then "Correct!".toList else "Incorrect.".toList)
    ∧ gradeAnswer exChoiceDemo "2".toList = some (true, "Correct!".toList)
    ∧ gradeAnswer exChoiceDemo "a".toList = some (false, "Incorrect.".toList) := by
  have hcf : choices.isEmpty = false := by
    cases choices with
    | nil => simp at hcr
    | cons _ _ => rfl
  refine ⟨?_, ?_, by decide, by decide⟩
  · have hstrip : pyStrip [c] = [c] := by
      apply pyStrip_eq_self
      intro x hx
      simp only [List.mem_singleton] at hx
      subst hx
      exact pyIsSpace_eq_false_of_ge (pyLowerChar_ge_97 hc)
    have hres : resolveChoiceAnswer choices [c]
        = some (choices.getD ((pyLowerChar c).toNat - 97) []) := by
      unfold resolveChoiceAnswer
      rw [if_pos (by simp [hc, hcf])]
      simp only [List.headD_cons]
      rw [if_pos hcr]
    simp only [gradeAnswer]
    rw [if_pos hty]
    simp only [hch, hkey, Option.getD_some, hstrip, hres]
  · have hdstrip : pyStrip digits = digits := by
      apply pyStrip_eq_self
      intro x hx
      exact pyIsSpace_eq_false_of_ge (by have := hd x hx; omega)
    have hdigs : pyIsDigitStr digits = true := by
      unfold pyIsDigitStr
      simp only [Bool.and_eq_true, Bool.not_eq_true']
      constructor
      · cases digits with
        | nil => exact absurd rfl hdne
        | cons _ _ => rfl
      · rw [List.all_eq_true]
        intro x hx
        have := hd x hx
        simp only [pyIsDigit, Bool.or_eq_true, Bool.and_eq_true, decide_eq_true_eq]
        omega
    have hres2 : resolveChoiceAnswer choices digits = some (choices.getD (n - 1) []) := by
      unfold resolveChoiceAnswer
      rw [if_neg (by simp [lowerInAlphabet_digits hd])]
      rw [if_pos (by simp [hdigs, hcf])]
      rw [hn]
      simp only []
      rw [if_pos (by simp [hn1, hnr])]
    simp only [gradeAnswer]
    rw [if_pos hty]
    simp only [hch, hkey, Option.getD_some, hdstrip, hres2]

/-- Witness for C5: letter `b` and digit string `"2"` against the demo
exercise. -/
theorem choice_resolution_witness :
    gradeAnswer exChoiceDemo ['b']
      = some ((normalize ((exChoiceDemo.choices.getD []).getD
              ((pyLowerChar 'b').toNat - 97) []) == normalize "Buenos días".toList),
          if normalize ((exChoiceDemo.choices.getD []).getD
              ((pyLowerChar 'b').toNat - 97) []) == normalize "Buenos días".toList
          then "Correct!".toList else "Incorrect.".toList)
    ∧ gradeAnswer exChoiceDemo "2".toList
      = some ((normalize ((exChoiceDemo.choices.getD []).getD (2 - 1) [])
            == normalize "Buenos días".toList),
          if normalize ((exChoiceDemo.choices.getD []).getD (2 - 1) [])
              == normalize "Buenos días".toList
          then "Correct!".toList else "Incorrect.".toList)
    ∧ gradeAnswer exChoiceDemo "2".toList = some (true, "Correct!".toList)
    ∧ gradeAnswer exChoiceDemo "a".toList = some (false, "Incorrect.".toList) :=
  choice_resolution exChoiceDemo (exChoiceDemo.choices.getD []) "Buenos días".toList
    'b' "2".toList 2 (Or.inl rfl) rfl rfl (by decide) (by decide)
    (by decide) (by decide) (by decide) (by decide) (by decide)

/-- The exact rational value of `SequenceMatcher.ratio`:
`2 * M / (len(a) + len(b))`. -/
def seqRatioQ (a b : List Char) : ℚ :=
  2 * (matchingBlocksTotal a b : ℚ) / ((a.length : ℚ) + (b.length : ℚ))

/-- The boolean threshold test of grading.py agrees with the exact
rational comparison `ratio > 85/100` whenever the two strings are not
both empty. -/
lemma seqRatioGt85_iff (a b : List Char) (hT : a.length + b.length ≠ 0) :
    seqRatioGt85 a b = true ↔ (85 : ℚ) / 100 < seqRatioQ a b := by
  unfold seqRatioGt85 seqRatioQ
  rw [if_neg hT, decide_eq_true_eq]
  have hTpos : (0 : ℚ) < (a.length : ℚ) + (b.length : ℚ) := by
    have h : 0 < a.length + b.length := Nat.pos_of_ne_zero hT
    exact_mod_cast h
  rw [div_lt_div_iff₀ (by norm_num) hTpos]
  constructor
  · intro h17
    have h85 : 85 * (a.length + b.length) < 2 * matchingBlocksTotal a b * 100 := by
      omega
    exact_mod_cast h85
  · intro h85
    have hn : 85 * (a.length + b.length) < 2 * matchingBlocksTotal a b * 100 := by
      exact_mod_cast h85
    omega

/-- Free-text exercise from the spec example. -/
def exGracias : Exercise :=
  { type := "translate".toList, prompt := "thanks".toList,
    answer_key := some "Gracias".toList, choices := none, difficulty := 1 }

set_option maxRecDepth 8192 in
/-- C8: for a non-choice exercise whose normalized answer mismatches, the
feedback is the "Close!" hint exactly when the matching-blocks similarity
ratio of the normalized strings exceeds 0.85, and the "Expected:" message
otherwise; concretely `"Grasias"` against `"Gracias"` earns the "Close!"
hint. -/
theorem fuzzy_feedback (ex : Exercise) (u : List Char)
    (hty : ¬ (ex.type = "mcq".toList ∨ ex.type = "multiple_choice".toList))
    (hne : ¬ normalize u = normalize (ex.answer_key.getD [])) :
    (gradeAnswer ex u = some (false, "Close! Watch spelling or accents.".toList)
      ↔ (85 : ℚ) / 100 < seqRatioQ (normalize u) (normalize (ex.answer_key.getD [])))
    ∧ (¬ (85 : ℚ) / 100 < seqRatioQ (normalize u) (normalize (ex.answer_key.getD [])) →
        gradeAnswer ex u = some (false, "Expected: ".toList ++ ex.answer_key.getD []))
    ∧ gradeAnswer exGracias "Grasias".toList
        = some (false, "Close! Watch spelling or accents.".toList) := by
  have hbeq : (normalize u == normalize (ex.answer_key.getD [])) = false := by
    rw [beq_eq_false_iff_ne]
    exact hne
  have hT : (normalize u).length + (normalize (ex.answer_key.getD [])).length ≠ 0 := by
    intro h0
    apply hne
    have h1 : normalize u = [] := List.length_eq_zero.mp (by omega)
    have h2 : normalize (ex.answer_key.getD []) = [] := List.length_eq_zero.mp (by omega)
    rw [h1, h2]
  have e : gradeAnswer ex u =
      (if seqRatioGt85 (normalize u) (normalize (ex.answer_key.getD [])) then
        some (false, "Close! Watch spelling or accents.".toList)
      else some (false, "Expected: ".toList ++ ex.answer_key.getD [])) := by
    simp only [gradeAnswer]
    rw [if_neg hty]
    simp only [hbeq, Bool.false_eq_true, if_false]
  refine ⟨?_, ?_, by decide⟩
  · rw [e]
    by_cases hgt : seqRatioGt85 (normalize u) (normalize (ex.answer_key.getD [])) = true
    · rw [if_pos hgt]
      constructor
      · intro _
        exact (seqRatioGt85_iff _ _ hT).mp hgt
      · intro _
        rfl
    · rw [if_neg hgt]
      have hmsg : ("Expected: ".toList ++ ex.answer_key.getD [])
          ≠ "Close! Watch spelling or accents.".toList := by
        intro hh
        rw [show ("Expected: ".toList : List Char) = 'E' :: "xpected: ".toList from rfl,
          List.cons_append] at hh
        injection hh with h1 _
        exact absurd h1 (by decide)
      constructor
      · intro hsome
        exfalso
        simp only [Option.some.injEq, Prod.mk.injEq] at hsome
        exact hmsg hsome.2
      · intro hraQ
        exact absurd ((seqRatioGt85_iff _ _ hT).mpr hraQ) hgt
  · intro hnotQ
    have hgt : ¬ seqRatioGt85 (normalize u) (normalize (ex.answer_key.getD [])) = true :=
      fun hg => hnotQ ((seqRatioGt85_iff _ _ hT).mp hg)
    rw [e, if_neg hgt]

set_option maxRecDepth 8192 in
/-- Witness for C8 at the `"Grasias"`/`"Gracias"` example. -/
theorem fuzzy_feedback_witness :
    (gradeAnswer exGracias "Grasias".toList
        = some (false, "Close! Watch spelling or accents.".toList)
      ↔ (85 : ℚ) / 100 <
          seqRatioQ (normalize "Grasias".toList)
            (normalize (exGracias.answer_key.getD [])))
    ∧ (¬ (85 : ℚ) / 100 <
          seqRatioQ (normalize "Grasias".toList)
            (normalize (exGracias.answer_key.getD [])) →
        gradeAnswer exGracias "Grasias".toList
          = some (false, "Expected: ".toList ++ exGracias.answer_key.getD []))
    ∧ gradeAnswer exGracias "Grasias".toList
        = some (false, "Close! Watch spelling or accents.".toList) :=
  fuzzy_feedback exGracias "Grasias".toList (by decide) (by decide)

end ProgressEngine
